import Mathlib

/-!
Shallow embedding of the dna-analysis-mcp server (src/index.ts).

JavaScript strings are modelled as `List Char`; the JS string operations used
by the server (`trim`, `split`, `replace(/\t/g, ',')`, `startsWith`,
`endsWith`, `includes`, `join`) are modelled as explicit functions on
`List Char`.  The filesystem is an external collaborator and is modelled as a
record of oracle functions (`FS`); the query handler additionally returns the
list of filesystem calls it performed, so that "no file access happened"
claims are statable.  `JSON.parse` (a platform builtin) is modelled by a
recursive-descent JSON parser (`jsonParse`); JSON numbers are kept as their
raw character span since the server never inspects numeric values.  The
JavaScript regular-expression engine used by `list_subjects` is modelled as an
abstract compile oracle `Str → Option (Str → Bool)` where `none` models a
pattern on which `new RegExp` throws.
-/

abbrev Str := List Char

/-- Coerce a Lean string literal to the `List Char` string model. -/
def str (s : String) : Str := s.data

/-- Whitespace characters removed by JavaScript `String.prototype.trim`
(the common subset: space, tab, line feed, carriage return, vertical tab,
form feed, no-break space). -/
def isJsWs (c : Char) : Bool :=
  c = ' ' || c = '\t' || c = '\n' || c = '\r' || c = '\x0b' || c = '\x0c' ||
  c = '\xa0'

/-- JavaScript `s.trim()`: drop leading and trailing whitespace. -/
def jsTrim (s : Str) : Str :=
  ((s.dropWhile isJsWs).reverse.dropWhile isJsWs).reverse

/-- JavaScript `s.split(sep)` for a single-character separator: always returns
at least one (possibly empty) piece. -/
def jsSplit (sep : Char) : Str → List Str
  | [] => [[]]
  | c :: cs =>
    if c = sep then [] :: jsSplit sep cs
    else
      match jsSplit sep cs with
      | [] => [[c]]
      | piece :: pieces => (c :: piece) :: pieces

/-- Character-level translation used for `replace(/\t/g, ',')`. -/
def tabToComma (c : Char) : Char := if c = '\t' then ',' else c

/-- `validateRsid` (src/index.ts:52-55): trim, then full-string match against
the regular expression `^rs\d+$` — the character `r`, the character `s`, then
one or more decimal digits. -/
def validateRsid (rsid : Str) : Bool :=
  match jsTrim rsid with
  | 'r' :: 's' :: d :: ds => (d :: ds).all Char.isDigit
  | _ => false

/-! ## JSON values and `JSON.parse` (platform builtin used at src/index.ts:424) -/

inductive Json where
  | null
  | bool (b : Bool)
  | num (raw : Str)
  | str (s : Str)
  | arr (elems : List Json)
  | obj (fields : List (Str × Json))

/-- Whitespace accepted between tokens by `JSON.parse`. -/
def isJsonWs (c : Char) : Bool := c = ' ' || c = '\t' || c = '\n' || c = '\r'

def skipJsonWs (s : Str) : Str := s.dropWhile isJsonWs

def isHexDigit (c : Char) : Bool :=
  c.isDigit || ('a' ≤ c && c ≤ 'f') || ('A' ≤ c && c ≤ 'F')

def hexVal (c : Char) : Nat :=
  if c.isDigit then c.toNat - '0'.toNat
  else if 'a' ≤ c && c ≤ 'f' then c.toNat - 'a'.toNat + 10
  else c.toNat - 'A'.toNat + 10

/-- Parse the body of a JSON string after the opening quote; returns the
decoded content and the remainder after the closing quote. -/
def parseStringBody : Str → Option (Str × Str)
  | [] => none
  | '"' :: rest => some ([], rest)
  | '\\' :: 'u' :: a :: b :: c :: d :: rest =>
    if isHexDigit a && isHexDigit b && isHexDigit c && isHexDigit d then
      match parseStringBody rest with
      | some (s, r) =>
        some (Char.ofNat
          (((hexVal a * 16 + hexVal b) * 16 + hexVal c) * 16 + hexVal d) :: s, r)
      | none => none
    else none
  | '\\' :: e :: rest =>
    let dec : Option Char :=
      if e = '"' then some '"' else if e = '\\' then some '\\'
      else if e = '/' then some '/' else if e = 'b' then some '\x08'
      else if e = 'f' then some '\x0c' else if e = 'n' then some '\n'
      else if e = 'r' then some '\r' else if e = 't' then some '\t'
      else none
    match dec with
    | some ch =>
      match parseStringBody rest with
      | some (s, r) => some (ch :: s, r)
      | none => none
    | none => none
  | c :: rest =>
    if c.toNat < 32 then none
    else
      match parseStringBody rest with
      | some (s, r) => some (c :: s, r)
      | none => none

def spanDigits (s : Str) : Str × Str :=
  (s.takeWhile Char.isDigit, s.dropWhile Char.isDigit)

/-- Integer part of a JSON number after an optional sign: `0` or a nonzero
digit followed by digits. -/
def parseIntPart : Str → Option (Str × Str)
  | [] => none
  | '0' :: rest => some (['0'], rest)
  | c :: rest =>
    if c.isDigit then
      let (ds, r) := spanDigits rest
      some (c :: ds, r)
    else none

/-- Optional fractional part `.digits` of a JSON number. -/
def parseFracPart (s : Str) : Option (Str × Str) :=
  match s with
  | '.' :: rest =>
    let (ds, r) := spanDigits rest
    if ds.isEmpty then none else some ('.' :: ds, r)
  | _ => some ([], s)

/-- Optional exponent part `e[+-]digits` of a JSON number. -/
def parseExpPart (s : Str) : Option (Str × Str) :=
  match s with
  | e :: rest =>
    if e = 'e' || e = 'E' then
      let (sign, rest2) :=
        match rest with
        | '+' :: r => ((['+'] : Str), r)
        | '-' :: r => ((['-'] : Str), r)
        | r => (([] : Str), r)
      let (ds, r) := spanDigits rest2
      if ds.isEmpty then none else some (e :: (sign ++ ds), r)
    else some ([], e :: rest)
  | [] => some ([], [])

/-- A complete JSON number; the raw matched span is returned. -/
def parseNumber (s : Str) : Option (Str × Str) :=
  let (neg, s1) :=
    match s with
    | '-' :: r => ((['-'] : Str), r)
    | r => (([] : Str), r)
  match parseIntPart s1 with
  | none => none
  | some (i, r1) =>
    match parseFracPart r1 with
    | none => none
    | some (f, r2) =>
      match parseExpPart r2 with
      | none => none
      | some (e, r3) => some (neg ++ i ++ f ++ e, r3)

mutual

/-- Parse one JSON value (fuelled recursive descent). -/
def parseValue : Nat → Str → Option (Json × Str)
  | 0, _ => none
  | fuel + 1, s =>
    match skipJsonWs s with
    | [] => none
    | '\x7b' :: rest =>
      match skipJsonWs rest with
      | '\x7d' :: r => some (.obj [], r)
      | r =>
        match parseMembers fuel r with
        | some (fs, r2) => some (.obj fs, r2)
        | none => none
    | '[' :: rest =>
      match skipJsonWs rest with
      | ']' :: r => some (.arr [], r)
      | r =>
        match parseElements fuel r with
        | some (es, r2) => some (.arr es, r2)
        | none => none
    | '"' :: rest =>
      match parseStringBody rest with
      | some (s2, r) => some (.str s2, r)
      | none => none
    | 't' :: 'r' :: 'u' :: 'e' :: r => some (.bool true, r)
    | 'f' :: 'a' :: 'l' :: 's' :: 'e' :: r => some (.bool false, r)
    | 'n' :: 'u' :: 'l' :: 'l' :: r => some (.null, r)
    | s2 =>
      match parseNumber s2 with
      | some (raw, r) => some (.num raw, r)
      | none => none

/-- Parse the comma-separated elements of a nonempty JSON array up to and
including the closing bracket. -/
def parseElements : Nat → Str → Option (List Json × Str)
  | 0, _ => none
  | fuel + 1, s =>
    match parseValue fuel s with
    | none => none
    | some (v, r) =>
      match skipJsonWs r with
      | ',' :: r2 =>
        match parseElements fuel r2 with
        | some (vs, r3) => some (v :: vs, r3)
        | none => none
      | ']' :: r2 => some ([v], r2)
      | _ => none

/-- Parse the members of a nonempty JSON object up to and including the
closing brace. -/
def parseMembers : Nat → Str → Option (List (Str × Json) × Str)
  | 0, _ => none
  | fuel + 1, s =>
    match skipJsonWs s with
    | '"' :: rest =>
      match parseStringBody rest with
      | none => none
      | some (k, r) =>
        match skipJsonWs r with
        | ':' :: r2 =>
          match parseValue fuel r2 with
          | none => none
          | some (v, r3) =>
            match skipJsonWs r3 with
            | ',' :: r4 =>
              match parseMembers fuel r4 with
              | some (ms, r5) => some ((k, v) :: ms, r5)
              | none => none
            | '\x7d' :: r4 => some ([(k, v)], r4)
            | _ => none
        | _ => none
    | _ => none

end

/-- `JSON.parse`: parse a complete JSON document (surrounding whitespace
allowed), `none` on any syntax error. -/
def jsonParse (s : Str) : Option Json :=
  match parseValue (s.length + 1) s with
  | some (v, r) => if (skipJsonWs r).isEmpty then some v else none
  | none => none

/-! ## Identifier normalisation (src/index.ts:414-443)

The zod schema `QuerySnpDataSchema` types `rsids` as `string | string[]`, so
the normaliser's input is a two-way tagged union.  Array inputs are used
as-is; a string input whose trimmed form starts with `[` and ends with `]` is
fed to `JSON.parse`, and the parsed value is used when it is an array (its
elements may be arbitrary JSON values, hence the element type `Json`);
otherwise the original string becomes a one-element list. -/

inductive RsidsInput where
  | str (s : Str)
  | arr (l : List Str)

/-- Trimmed form starts with `[` and ends with `]`
(`rsidsInput.trim().startsWith('[') && rsidsInput.trim().endsWith(']')`). -/
def looksBracketed (s : Str) : Bool :=
  (jsTrim s).headD ' ' = '[' && (jsTrim s).getLastD ' ' = ']'

/-- The rsids normaliser of the `query_snp_data` handler. -/
def normalizeRsids : RsidsInput → List Json
  | .arr l => l.map Json.str
  | .str s =>
    if looksBracketed s then
      match jsonParse s with
      | some (.arr parsed) => parsed
      | _ => [Json.str s]
    else [Json.str s]

/-! ## Privacy gate (src/index.ts:451-497) -/

inductive GateError where
  | tooMany (count : Nat)
  | tooFew
  | invalidFormat (invalid : List Str)

/-- The validation performed before any file access: cardinality upper bound,
then cardinality lower bound, then per-element format validation (the
rejection carries every element that failed `validateRsid`). -/
def privacyGate (rsids : List Str) : Option GateError :=
  if rsids.length > 10 then some (.tooMany rsids.length)
  else if rsids.length = 0 then some .tooFew
  else
    let invalidRsids := rsids.filter (fun rsid => !validateRsid rsid)
    if invalidRsids.length > 0 then some (.invalidFormat invalidRsids)
    else none

/-! ## Filesystem collaborator -/

structure FS where
  dirExists : Str → Bool
  fileExists : Str → Bool
  readFile : Str → Option Str
  readdir : Str → List Str

/-- One observable call to the filesystem collaborator. -/
inductive FsCall where
  | dirExists (path : Str)
  | fileExists (path : Str)
  | readFile (path : Str)

/-- `path.join` modelled with a `/` separator. -/
def pathJoin (a b : Str) : Str := a ++ '/' :: b

/-! ## Marker file scan (src/index.ts:529-559) -/

structure ScanState where
  header : Option Str
  matchingRows : List Str
  foundRsids : List Str

/-- JS `Set.prototype.add`: insertion order is kept, duplicates ignored
(`Array.from` later yields first-insertion order). -/
def setAdd (s : List Str) (x : Str) : List Str :=
  if s.contains x then s else s ++ [x]

/-- Body of the `for (const line of lines)` loop: skip lines blank after
trimming; the first surviving line becomes the header with tabs replaced by
commas; later lines are split on tab and matched by first column against the
queried rsids. -/
def scanStep (rsids : List Str) (st : ScanState) (line : Str) : ScanState :=
  let trimmedLine := jsTrim line
  if trimmedLine.isEmpty then st
  else
    match st.header with
    | none => { st with header := some (trimmedLine.map tabToComma) }
    | some _ =>
      let columns := jsSplit '\t' trimmedLine
      if decide (columns.length > 0) && rsids.contains (columns.headD []) then
        { st with
            matchingRows := st.matchingRows ++ [List.intercalate [','] columns]
            foundRsids := setAdd st.foundRsids (columns.headD []) }
      else st

def scanLines (rsids : List Str) (lines : List Str) : ScanState :=
  lines.foldl (scanStep rsids) ⟨none, [], []⟩

def scanFile (rsids : List Str) (content : Str) : ScanState :=
  scanLines rsids (jsSplit '\n' content)

/-! ## query_snp_data handler (src/index.ts:403-589) -/

structure QueryResult where
  subject : Str
  header : Option Str
  matching_rows : List Str
  queried_rsids : List Str
  found_count : Nat
  found_rsids : List Str
  not_found_rsids : List Str

inductive QueryResponse where
  | errTooMany (count : Nat)
  | errTooFew
  | errInvalidFormat (invalid : List Str)
  | errSubjectNotFound (subject : Str)
  | errNoSnpFile (subject : Str)
  | errRead (subject : Str)
  | ok (result : QueryResult)

/-- Result assembly on the success path (src/index.ts:558-576). -/
def assembleResult (subjectName : Str) (rsids : List Str) (content : Str) :
    QueryResult :=
  let st := scanFile rsids content
  { subject := subjectName
    header := st.header
    matching_rows := st.matchingRows
    queried_rsids := rsids
    found_count := st.matchingRows.length
    found_rsids := st.foundRsids
    not_found_rsids := rsids.filter (fun rsid => !st.foundRsids.contains rsid) }

/-- The `query_snp_data` handler after rsids normalisation, against a
filesystem collaborator; also returns the filesystem calls performed, in
order. -/
def querySnpHandler (fs : FS) (samplesDir subjectName : Str)
    (rsids : List Str) : QueryResponse × List FsCall :=
  match privacyGate rsids with
  | some (.tooMany n) => (.errTooMany n, [])
  | some .tooFew => (.errTooFew, [])
  | some (.invalidFormat invalid) => (.errInvalidFormat invalid, [])
  | none =>
    let subjectDir := pathJoin samplesDir subjectName
    let snpFile := pathJoin subjectDir (str "snp.txt")
    if !fs.dirExists subjectDir then
      (.errSubjectNotFound subjectName, [.dirExists subjectDir])
    else if !fs.fileExists snpFile then
      (.errNoSnpFile subjectName, [.dirExists subjectDir, .fileExists snpFile])
    else
      match fs.readFile snpFile with
      | none =>
        (.errRead subjectName,
         [.dirExists subjectDir, .fileExists snpFile, .readFile snpFile])
      | some content =>
        (.ok (assembleResult subjectName rsids content),
         [.dirExists subjectDir, .fileExists snpFile, .readFile snpFile])

/-! ## list_subjects handler (src/index.ts:219-281) -/

inductive ListSubjectsResponse where
  | ok (subjects : List Str)
  | errBadPattern (p : Str)

/-- JS `Array.prototype.sort()` on strings: lexicographic by character code,
modelled by insertion sort under the lexicographic order on `List Char`. -/
def sortStrs (l : List Str) : List Str := l.insertionSort (· ≤ ·)

/-- The `list_subjects` handler: missing root yields an empty list; entries
that are directories are kept; an optional pattern is compiled by the regex
collaborator (`none` = `new RegExp` threw) and applied as a filter; the final
list is sorted. -/
def listSubjectsHandler (compileRegex : Str → Option (Str → Bool)) (fs : FS)
    (samplesDir : Str) (pattern : Option Str) : ListSubjectsResponse :=
  if !fs.dirExists samplesDir then .ok []
  else
    let items := fs.readdir samplesDir
    let subjects := items.filter (fun item => fs.dirExists (pathJoin samplesDir item))
    match pattern with
    | none => .ok (sortStrs subjects)
    | some p =>
      match compileRegex p with
      | none => .errBadPattern p
      | some test => .ok (sortStrs (subjects.filter test))

/-! ## Fixtures -/

/-- The literal five-column fixture file from the spec (header line, then the
rows `rs1 1 100 A G` and `rs2 2 200 C T`, tab-delimited). -/
def fixtureContent : Str :=
  str "rsid\tchromosome\tposition\tallele1\tallele2\nrs1\t1\t100\tA\tG\nrs2\t2\t200\tC\tT"

/-- A filesystem collaborator in which every directory and file exists and
every read returns the fixture file. -/
def fixtureFS : FS :=
  { dirExists := fun _ => true
    fileExists := fun _ => true
    readFile := fun _ => some fixtureContent
    readdir := fun _ => [] }

/-- The query result produced on the fixture for the queried list
`["rs1","rs3"]`. -/
def fixtureResult : QueryResult :=
  { subject := str "alice"
    header := some (str "rsid,chromosome,position,allele1,allele2")
    matching_rows := [str "rs1,1,100,A,G"]
    queried_rsids := [str "rs1", str "rs3"]
    found_count := 1
    found_rsids := [str "rs1"]
    not_found_rsids := [str "rs3"] }

/-- The filesystem calls of a successful fixture query. -/
def fixtureCalls : List FsCall :=
  [.dirExists (pathJoin (str "profiles") (str "alice")),
   .fileExists (pathJoin (pathJoin (str "profiles") (str "alice")) (str "snp.txt")),
   .readFile (pathJoin (pathJoin (str "profiles") (str "alice")) (str "snp.txt"))]

/-- A filesystem collaborator whose root directory is missing. -/
def emptyRootFS : FS :=
  { dirExists := fun _ => false
    fileExists := fun _ => false
    readFile := fun _ => none
    readdir := fun _ => [] }

/-- A filesystem collaborator whose root directory holds three subject
directories, enumerated out of lexicographic order. -/
def listFS : FS :=
  { dirExists := fun _ => true
    fileExists := fun _ => true
    readFile := fun _ => some fixtureContent
    readdir := fun _ => [str "bob", str "alice", str "carol"] }

/-! ## Helper lemmas about the string model -/

theorem contains_iff (l : List Str) (x : Str) : l.contains x = true ↔ x ∈ l :=
  List.elem_iff

theorem jsSplit_ne_nil (sep : Char) (s : Str) : jsSplit sep s ≠ [] := by
  induction s with
  | nil => simp [jsSplit]
  | cons c cs ih =>
    unfold jsSplit
    by_cases h : c = sep
    · simp [h]
    · rw [if_neg h]
      cases hs : jsSplit sep cs with
      | nil => simp
      | cons p ps => simp

theorem jsSplit_head (sep c : Char) (cs : Str) (h : ¬ c = sep) :
    ∃ piece pieces, jsSplit sep (c :: cs) = (c :: piece) :: pieces := by
  unfold jsSplit
  rw [if_neg h]
  cases hs : jsSplit sep cs with
  | nil => exact ⟨[], [], rfl⟩
  | cons p ps => exact ⟨p, ps, rfl⟩

theorem dropWhile_append_of_all (p : Char → Bool) (w s : Str)
    (h : ∀ c ∈ w, p c = true) : (w ++ s).dropWhile p = s.dropWhile p := by
  induction w with
  | nil => rfl
  | cons c cs ih =>
    rw [List.cons_append, List.dropWhile_cons, if_pos (h c (by simp))]
    exact ih (fun x hx => h x (by simp [hx]))

theorem dropWhile_head_false (p : Char → Bool) :
    ∀ (l : Str) (c : Char) (cs : Str), l.dropWhile p = c :: cs → p c = false := by
  intro l
  induction l with
  | nil => intro c cs h; cases h
  | cons a as ih =>
    intro c cs h
    rw [List.dropWhile_cons] at h
    by_cases hp : p a = true
    · rw [if_pos hp] at h; exact ih c cs h
    · rw [if_neg hp] at h
      cases h
      exact Bool.eq_false_iff.mpr hp

theorem exists_dropWhile_suffix (p : Char → Bool) :
    ∀ l : Str, ∃ w, l = w ++ l.dropWhile p := by
  intro l
  induction l with
  | nil => exact ⟨[], rfl⟩
  | cons a as ih =>
    by_cases hp : p a = true
    · obtain ⟨w, hw⟩ := ih
      refine ⟨a :: w, ?_⟩
      rw [List.dropWhile_cons, if_pos hp, List.cons_append]
      exact congrArg (a :: ·) hw
    · exact ⟨[], by rw [List.dropWhile_cons, if_neg hp]; rfl⟩

theorem jsTrim_head_not_ws (s : Str) (c : Char) (cs : Str)
    (h : jsTrim s = c :: cs) : isJsWs c = false := by
  unfold jsTrim at h
  obtain ⟨w, hw⟩ := exists_dropWhile_suffix isJsWs (s.dropWhile isJsWs).reverse
  have hu : s.dropWhile isJsWs = (c :: cs) ++ w.reverse := by
    have h2 := congrArg List.reverse hw
    rw [List.reverse_reverse, List.reverse_append, h] at h2
    exact h2
  exact dropWhile_head_false isJsWs s c (cs ++ w.reverse) (by simpa using hu)

theorem jsTrim_of_all_ws (w : Str) (h : ∀ c ∈ w, isJsWs c = true) :
    jsTrim w = [] := by
  unfold jsTrim
  rw [List.dropWhile_eq_nil_iff.mpr h]
  rfl

theorem jsTrim_pad (w1 w2 s : Str) (h1 : ∀ c ∈ w1, isJsWs c = true)
    (h2 : ∀ c ∈ w2, isJsWs c = true) : jsTrim (w1 ++ s ++ w2) = jsTrim s := by
  unfold jsTrim
  rw [List.append_assoc, dropWhile_append_of_all _ w1 _ h1, List.dropWhile_append]
  by_cases hs : (s.dropWhile isJsWs).isEmpty
  · rw [if_pos hs, List.dropWhile_eq_nil_iff.mpr h2,
      List.isEmpty_iff.mp hs]
  · rw [if_neg hs, List.reverse_append,
      dropWhile_append_of_all _ w2.reverse _
        (fun x hx => h2 x (List.mem_reverse.mp hx))]

/-! ## Helper lemmas about the scanner -/

theorem setAdd_mem (s : List Str) (a x : Str) :
    x ∈ setAdd s a ↔ x ∈ s ∨ x = a := by
  unfold setAdd
  by_cases h : s.contains a
  · rw [if_pos h]
    constructor
    · exact Or.inl
    · rintro (hx | rfl)
      · exact hx
      · exact (contains_iff s x).mp h
  · rw [if_neg h]
    simp [List.mem_append]

theorem scanStep_blank (rsids : List Str) (st : ScanState) (line : Str)
    (h : jsTrim line = []) : scanStep rsids st line = st := by
  simp only [scanStep, h]
  rfl

theorem scanStep_header_some (rsids : List Str) (st : ScanState) (line : Str)
    (h : Str) (hh : st.header = some h) :
    (scanStep rsids st line).header = some h := by
  obtain ⟨hdr, rows, found⟩ := st
  cases hh
  simp only [scanStep]
  by_cases hb : (jsTrim line).isEmpty
  · rw [if_pos hb]
  · rw [if_neg hb]
    split <;> rfl

theorem scanStep_nonblank_none (rsids : List Str) (st : ScanState) (line : Str)
    (hb : ¬ (jsTrim line).isEmpty = true) (hh : st.header = none) :
    scanStep rsids st line = { st with header := some ((jsTrim line).map tabToComma) } := by
  simp only [scanStep]
  rw [if_neg hb, hh]

theorem scanFold_header_some (rsids : List Str) :
    ∀ (lines : List Str) (st : ScanState) (h : Str), st.header = some h →
      (lines.foldl (scanStep rsids) st).header = some h := by
  intro lines
  induction lines with
  | nil => intro st h hh; exact hh
  | cons l ls ih =>
    intro st h hh
    rw [List.foldl_cons]
    exact ih _ h (scanStep_header_some rsids st l h hh)

theorem scanFold_header_none (rsids : List Str) :
    ∀ (lines : List Str) (st : ScanState), st.header = none →
      (lines.foldl (scanStep rsids) st).header =
        (lines.find? (fun l => !(jsTrim l).isEmpty)).map
          (fun l => (jsTrim l).map tabToComma) := by
  intro lines
  induction lines with
  | nil => intro st hst; simpa using hst
  | cons l ls ih =>
    intro st hst
    rw [List.foldl_cons]
    by_cases hb : (jsTrim l).isEmpty
    · have hl : jsTrim l = [] := List.isEmpty_iff.mp hb
      rw [scanStep_blank rsids st l hl,
        List.find?_cons_of_neg _ (by simp [hb]), ih st hst]
    · rw [scanStep_nonblank_none rsids st l hb hst,
        List.find?_cons_of_pos _ (by simp [hb]),
        scanFold_header_some rsids ls _ _ rfl]
      rfl

theorem scanFold_blank_filter (rsids : List Str) :
    ∀ (lines : List Str) (st : ScanState),
      lines.foldl (scanStep rsids) st =
        (lines.filter (fun l => !(jsTrim l).isEmpty)).foldl (scanStep rsids) st := by
  intro lines
  induction lines with
  | nil => intro st; rfl
  | cons l ls ih =>
    intro st
    rw [List.foldl_cons, List.filter_cons]
    by_cases hb : (jsTrim l).isEmpty
    · have hl : jsTrim l = [] := List.isEmpty_iff.mp hb
      rw [scanStep_blank rsids st l hl, if_neg (by simp [hb]), ih]
    · rw [if_pos (by simp [hb]), List.foldl_cons, ih]

theorem scanStep_found_sub (rsids : List Str) (st : ScanState) (line : Str) :
    ∀ x ∈ (scanStep rsids st line).foundRsids,
      x ∈ st.foundRsids ∨
        (x ∈ rsids ∧ ∃ c cs, x = c :: cs ∧ isJsWs c = false) := by
  intro x hx
  simp only [scanStep] at hx
  by_cases hb : (jsTrim line).isEmpty
  · rw [if_pos hb] at hx; exact Or.inl hx
  · rw [if_neg hb] at hx
    cases hh : st.header with
    | none => rw [hh] at hx; exact Or.inl hx
    | some h0 =>
      rw [hh] at hx
      by_cases hc : (decide ((jsSplit '\t' (jsTrim line)).length > 0) &&
          rsids.contains ((jsSplit '\t' (jsTrim line)).headD [])) = true
      · rw [if_pos hc] at hx
        rcases (setAdd_mem _ _ _).mp hx with hmem | hxa
        · exact Or.inl hmem
        · right
          have hcont := ((Bool.and_eq_true _ _).mp hc).2
          obtain ⟨c, cs, htl⟩ : ∃ c cs, jsTrim line = c :: cs := by
            cases htl2 : jsTrim line with
            | nil => exact absurd (List.isEmpty_iff.mpr htl2) hb
            | cons c cs => exact ⟨c, cs, rfl⟩
          have hcw : isJsWs c = false := jsTrim_head_not_ws line c cs htl
          have hct : ¬ c = '\t' := by
            intro hceq
            rw [hceq] at hcw
            exact absurd hcw (by decide)
          obtain ⟨piece, pieces, hsp⟩ := jsSplit_head '\t' c cs hct
          have ha : (jsSplit '\t' (jsTrim line)).headD [] = c :: piece := by
            rw [htl, hsp]; rfl
          rw [ha] at hcont hxa
          subst hxa
          exact ⟨(contains_iff _ _).mp hcont, c, piece, rfl, hcw⟩
      · rw [if_neg hc] at hx
        exact Or.inl hx

theorem scanFold_found_sub (rsids : List Str) :
    ∀ (lines : List Str) (st : ScanState) (x : Str),
      x ∈ (lines.foldl (scanStep rsids) st).foundRsids →
        x ∈ st.foundRsids ∨ (x ∈ rsids ∧ ∃ c cs, x = c :: cs ∧ isJsWs c = false) := by
  intro lines
  induction lines with
  | nil => intro st x hx; exact Or.inl hx
  | cons l ls ih =>
    intro st x hx
    rw [List.foldl_cons] at hx
    rcases ih _ x hx with hmem | hq
    · exact scanStep_found_sub rsids st l x hmem
    · exact Or.inr hq

theorem setAdd_length (s : List Str) (a : Str) :
    (setAdd s a).length ≤ s.length + 1 := by
  unfold setAdd
  split
  · exact Nat.le_succ _
  · simp

theorem scanStep_delta (rsids : List Str) (st : ScanState) (line : Str) :
    (scanStep rsids st line).foundRsids.length + st.matchingRows.length ≤
      (scanStep rsids st line).matchingRows.length + st.foundRsids.length := by
  obtain ⟨hdr, rows, found⟩ := st
  simp only [scanStep]
  by_cases hb : (jsTrim line).isEmpty
  · rw [if_pos hb]
    dsimp only
    omega
  · rw [if_neg hb]
    cases hdr with
    | none => dsimp only; omega
    | some h0 =>
      dsimp only
      by_cases hc : (decide ((jsSplit '\t' (jsTrim line)).length > 0) &&
          rsids.contains ((jsSplit '\t' (jsTrim line)).headD [])) = true
      · rw [if_pos hc]
        have h1 := setAdd_length found ((jsSplit '\t' (jsTrim line)).headD [])
        dsimp only
        simp only [List.length_append, List.length_cons, List.length_nil]
        omega
      · rw [if_neg hc]
        dsimp only
        omega

theorem scanFold_delta (rsids : List Str) :
    ∀ (lines : List Str) (st : ScanState),
      (lines.foldl (scanStep rsids) st).foundRsids.length + st.matchingRows.length ≤
        (lines.foldl (scanStep rsids) st).matchingRows.length + st.foundRsids.length := by
  intro lines
  induction lines with
  | nil => intro st; rw [List.foldl_nil]; omega
  | cons l ls ih =>
    intro st
    rw [List.foldl_cons]
    have h1 := ih (scanStep rsids st l)
    have h2 := scanStep_delta rsids st l
    omega

theorem count_filter_zero (p : Str → Bool) (x : Str) (l : List Str)
    (h : p x = false) : (l.filter p).count x = 0 :=
  List.count_eq_zero.mpr (fun hmem => by
    have h2 := (List.mem_filter.mp hmem).2
    rw [h] at h2
    cases h2)

/-- Success-shape inversion for the query handler: an `ok` response can only
come from the read-file branch, and the result is `assembleResult`. -/
theorem querySnpHandler_ok (fs : FS) (d subj : Str) (rsids : List Str)
    (r : QueryResult) (calls : List FsCall)
    (H : querySnpHandler fs d subj rsids = (.ok r, calls)) :
    ∃ content,
      fs.readFile (pathJoin (pathJoin d subj) (str "snp.txt")) = some content ∧
        r = assembleResult subj rsids content := by
  unfold querySnpHandler at H
  split at H
  · exact absurd H (by simp)
  · exact absurd H (by simp)
  · exact absurd H (by simp)
  · dsimp only at H
    split at H
    · exact absurd H (by simp)
    · split at H
      · exact absurd H (by simp)
      · split at H
        · exact absurd H (by simp)
        · rename_i content heq
          refine ⟨content, heq, ?_⟩
          have h2 := congrArg Prod.fst H
          dsimp only at h2
          injection h2 with h3
          exact h3.symm

theorem mem_invalid_filter (rsids : List Str) (r : Str) :
    r ∈ rsids.filter (fun x => !validateRsid x) ↔
      (r ∈ rsids ∧ validateRsid r = false) := by
  rw [List.mem_filter]
  simp

/-- Exhaustive description of the privacy gate: exactly one of the four
outcomes happens, and each outcome characterises the input list. -/
theorem privacyGate_cases (rsids : List Str) :
    (rsids.length > 10 ∧ privacyGate rsids = some (.tooMany rsids.length)) ∨
    (rsids.length = 0 ∧ privacyGate rsids = some .tooFew) ∨
    (1 ≤ rsids.length ∧ rsids.length ≤ 10 ∧
      (((rsids.filter (fun r => !validateRsid r)).length > 0 ∧
          privacyGate rsids =
            some (.invalidFormat (rsids.filter (fun r => !validateRsid r)))) ∨
        (rsids.filter (fun r => !validateRsid r) = [] ∧
          privacyGate rsids = none))) := by
  unfold privacyGate
  by_cases h1 : rsids.length > 10
  · exact Or.inl ⟨h1, by rw [if_pos h1]⟩
  · rw [if_neg h1]
    by_cases h2 : rsids.length = 0
    · exact Or.inr (Or.inl ⟨h2, by rw [if_pos h2]⟩)
    · rw [if_neg h2]
      refine Or.inr (Or.inr ⟨by omega, by omega, ?_⟩)
      by_cases h3 : (rsids.filter (fun r => !validateRsid r)).length > 0
      · exact Or.inl ⟨h3, by dsimp only; rw [if_pos h3]⟩
      · refine Or.inr ⟨?_, by dsimp only; rw [if_neg h3]⟩
        cases hf : rsids.filter (fun r => !validateRsid r) with
        | nil => rfl
        | cons a as => rw [hf] at h3; simp at h3

/-- On a privacy-gate rejection the handler performs no filesystem call. -/
theorem querySnpHandler_rejected_calls (fs : FS) (samplesDir subjectName : Str)
    (rsids : List Str) (e : GateError) (h : privacyGate rsids = some e) :
    (querySnpHandler fs samplesDir subjectName rsids).2 = [] := by
  unfold querySnpHandler
  rw [h]
  cases e <;> rfl

theorem ws_not_digit (c : Char) (h : isJsWs c = true) : c.isDigit = false := by
  simp only [isJsWs, Bool.or_eq_true, decide_eq_true_eq] at h
  rcases h with ((((((h | h) | h) | h) | h) | h) | h) <;> subst h <;> decide

theorem contains_eq_false (l : List Str) (x : Str) (h : x ∉ l) :
    l.contains x = false := by
  cases hc : l.contains x with
  | false => rfl
  | true => exact absurd ((contains_iff l x).mp hc) h

/-- Field equations of `assembleResult`. -/
theorem assembleResult_fields (subjectName : Str) (rsids : List Str)
    (content : Str) :
    (assembleResult subjectName rsids content).queried_rsids = rsids ∧
    (assembleResult subjectName rsids content).found_rsids =
      (scanFile rsids content).foundRsids ∧
    (assembleResult subjectName rsids content).not_found_rsids =
      rsids.filter (fun x => !(scanFile rsids content).foundRsids.contains x) ∧
    (assembleResult subjectName rsids content).found_count =
      (assembleResult subjectName rsids content).matching_rows.length ∧
    (assembleResult subjectName rsids content).matching_rows =
      (scanFile rsids content).matchingRows ∧
    (assembleResult subjectName rsids content).header =
      (scanFile rsids content).header :=
  ⟨rfl, rfl, rfl, rfl, rfl, rfl⟩

theorem sortStrs_perm_eq (l1 l2 : List Str) (h : l1.Perm l2) :
    sortStrs l1 = sortStrs l2 :=
  List.eq_of_perm_of_sorted (r := (· ≤ ·))
    ((List.perm_insertionSort _ l1).trans
      (h.trans (List.perm_insertionSort _ l2).symm))
    (List.sorted_insertionSort _ l1)
    (List.sorted_insertionSort _ l2)

theorem setAdd_nodup (s : List Str) (a : Str) (h : s.Nodup) :
    (setAdd s a).Nodup := by
  unfold setAdd
  by_cases hc : s.contains a = true
  · rw [if_pos hc]; exact h
  · rw [if_neg hc]
    have ha : a ∉ s := fun hm => hc ((contains_iff s a).mpr hm)
    simp [List.nodup_append, h, ha]

theorem scanStep_nodup (rsids : List Str) (st : ScanState) (line : Str)
    (h : st.foundRsids.Nodup) : (scanStep rsids st line).foundRsids.Nodup := by
  obtain ⟨hdr, rows, found⟩ := st
  simp only [scanStep]
  by_cases hb : (jsTrim line).isEmpty
  · rw [if_pos hb]; exact h
  · rw [if_neg hb]
    cases hdr with
    | none => exact h
    | some h0 =>
      dsimp only
      split
      · exact setAdd_nodup _ _ h
      · exact h

theorem scanFold_nodup (rsids : List Str) :
    ∀ (lines : List Str) (st : ScanState), st.foundRsids.Nodup →
      ((lines.foldl (scanStep rsids) st).foundRsids).Nodup := by
  intro lines
  induction lines with
  | nil => intro st h; exact h
  | cons l ls ih =>
    intro st h
    rw [List.foldl_cons]
    exact ih _ (scanStep_nodup rsids st l h)

/-! ## Claim theorems -/

/-- Claim C1: on the literal five-column fixture file with queried identifiers
`["rs1","rs3"]`, `query_snp_data` returns header
`"rsid,chromosome,position,allele1,allele2"`, matching rows
`["rs1,1,100,A,G"]`, found `["rs1"]`, not-found `["rs3"]` and found count 1. -/
theorem claim_C1 :
    querySnpHandler fixtureFS (str "profiles") (str "alice")
        [str "rs1", str "rs3"] =
      (.ok { subject := str "alice"
             header := some (str "rsid,chromosome,position,allele1,allele2")
             matching_rows := [str "rs1,1,100,A,G"]
             queried_rsids := [str "rs1", str "rs3"]
             found_count := 1
             found_rsids := [str "rs1"]
             not_found_rsids := [str "rs3"] },
       [.dirExists (pathJoin (str "profiles") (str "alice")),
        .fileExists (pathJoin (pathJoin (str "profiles") (str "alice")) (str "snp.txt")),
        .readFile (pathJoin (pathJoin (str "profiles") (str "alice")) (str "snp.txt"))]) := by
  rfl

/-- Claim C2: whenever the normalized identifier list is rejected by the
privacy gate (empty, more than 10 elements, or some element failing the
grammar), the handler performs zero filesystem calls. -/
theorem claim_C2 (fs : FS) (samplesDir subjectName : Str) (rsids : List Str)
    (h : rsids.length = 0 ∨ rsids.length > 10 ∨
      ∃ r ∈ rsids, validateRsid r = false) :
    (querySnpHandler fs samplesDir subjectName rsids).2 = [] := by
  obtain ⟨e, he⟩ : ∃ e, privacyGate rsids = some e := by
    rcases privacyGate_cases rsids with ⟨_, hg⟩ | ⟨_, hg⟩ |
      ⟨hge, hle, ⟨_, hg⟩ | ⟨hnil, hg⟩⟩
    · exact ⟨_, hg⟩
    · exact ⟨_, hg⟩
    · exact ⟨_, hg⟩
    · exfalso
      rcases h with h0 | h10 | ⟨r, hr, hv⟩
      · omega
      · omega
      · have hmem : r ∈ rsids.filter (fun x => !validateRsid x) :=
          (mem_invalid_filter rsids r).mpr ⟨hr, hv⟩
        rw [hnil] at hmem
        cases hmem
  exact querySnpHandler_rejected_calls fs samplesDir subjectName rsids e he

theorem claim_C2_witness :
    (querySnpHandler fixtureFS (str "profiles") (str "alice") []).2 = [] :=
  claim_C2 fixtureFS (str "profiles") (str "alice") [] (Or.inl rfl)

/-- Claim C3: the privacy gate rejects with "too many" exactly when the list
has more than 10 elements (this takes priority over format checks), rejects
with "too few" exactly when the list is empty, accepts exactly the lists of
length 1 to 10 whose elements all pass validation, and a format rejection
names exactly the failing elements. -/
theorem claim_C3 (rsids : List Str) :
    ((∃ n, privacyGate rsids = some (.tooMany n)) ↔ rsids.length > 10) ∧
    (privacyGate rsids = some .tooFew ↔ rsids.length = 0) ∧
    (privacyGate rsids = none ↔
      (1 ≤ rsids.length ∧ rsids.length ≤ 10 ∧
        ∀ r ∈ rsids, validateRsid r = true)) ∧
    (∀ invalid, privacyGate rsids = some (.invalidFormat invalid) →
      invalid = rsids.filter (fun r => !validateRsid r) ∧
        ∀ r, r ∈ invalid ↔ (r ∈ rsids ∧ validateRsid r = false)) := by
  rcases privacyGate_cases rsids with ⟨hlen, hg⟩ | ⟨hlen, hg⟩ |
    ⟨hge, hle, ⟨hpos, hg⟩ | ⟨hnil, hg⟩⟩
  · refine ⟨⟨fun _ => hlen, fun _ => ⟨_, hg⟩⟩, ?_, ?_, ?_⟩
    · constructor
      · intro h; rw [hg] at h; injection h with h2; cases h2
      · intro h; omega
    · constructor
      · intro h; rw [hg] at h; cases h
      · rintro ⟨-, h10, -⟩; omega
    · intro invalid hinv
      rw [hg] at hinv; injection hinv with h2; cases h2
  · refine ⟨?_, ⟨fun _ => hlen, fun _ => hg⟩, ?_, ?_⟩
    · constructor
      · rintro ⟨n, h⟩; rw [hg] at h; injection h with h2; cases h2
      · intro h; omega
    · constructor
      · intro h; rw [hg] at h; cases h
      · rintro ⟨h1, -, -⟩; omega
    · intro invalid hinv
      rw [hg] at hinv; injection hinv with h2; cases h2
  · refine ⟨?_, ?_, ?_, ?_⟩
    · constructor
      · rintro ⟨n, h⟩; rw [hg] at h; injection h with h2; cases h2
      · intro h; omega
    · constructor
      · intro h; rw [hg] at h; injection h with h2; cases h2
      · intro h; omega
    · constructor
      · intro h; rw [hg] at h; cases h
      · rintro ⟨-, -, hall⟩
        exfalso
        have hf : rsids.filter (fun r => !validateRsid r) = [] := by
          cases hfe : rsids.filter (fun r => !validateRsid r) with
          | nil => rfl
          | cons a as =>
            have ha : a ∈ rsids.filter (fun x => !validateRsid x) := by
              rw [hfe]; exact List.mem_cons_self a as
            have h2 := (mem_invalid_filter rsids a).mp ha
            rw [hall a h2.1] at h2
            cases h2.2
        rw [hf] at hpos
        simp at hpos
    · intro invalid hinv
      rw [hg] at hinv
      injection hinv with h2
      injection h2 with h3
      constructor
      · exact h3.symm
      · intro r
        rw [← h3]
        exact mem_invalid_filter rsids r
  · refine ⟨?_, ?_, ⟨fun _ => ?_, fun _ => hg⟩, ?_⟩
    · constructor
      · rintro ⟨n, h⟩; rw [hg] at h; cases h
      · intro h; omega
    · constructor
      · intro h; rw [hg] at h; cases h
      · intro h; omega
    · refine ⟨hge, hle, ?_⟩
      intro r hr
      cases hv : validateRsid r with
      | true => rfl
      | false =>
        exfalso
        have hmem : r ∈ rsids.filter (fun x => !validateRsid x) :=
          (mem_invalid_filter rsids r).mpr ⟨hr, hv⟩
        rw [hnil] at hmem
        cases hmem
    · intro invalid hinv
      rw [hg] at hinv; cases hinv

theorem claim_C3_witness :
    (∃ n, privacyGate (List.replicate 11 (str "rs1")) = some (.tooMany n)) ∧
    privacyGate [] = some .tooFew :=
  ⟨(claim_C3 (List.replicate 11 (str "rs1"))).1.mpr (by decide),
   (claim_C3 []).2.1.mpr rfl⟩

/-- Claim C4: the normaliser returns sequence inputs unchanged; a bracketed
string that parses as a serialized array yields the parsed array; every other
string (non-bracketed, failing to parse, or parsing to a non-array) yields the
one-element list holding the original string; in particular
`normalize("[\"rs1\",\"rs2\"]") = ["rs1","rs2"]` and
`normalize("rs1") = ["rs1"]`.  The normaliser is a total Lean function, so it
never throws. -/
theorem claim_C4 :
    (∀ l, normalizeRsids (.arr l) = l.map Json.str) ∧
    (∀ s parsed, looksBracketed s = true → jsonParse s = some (.arr parsed) →
      normalizeRsids (.str s) = parsed) ∧
    (∀ s, looksBracketed s = false → normalizeRsids (.str s) = [Json.str s]) ∧
    (∀ s, looksBracketed s = true →
      (∀ parsed, jsonParse s ≠ some (.arr parsed)) →
      normalizeRsids (.str s) = [Json.str s]) ∧
    normalizeRsids (.str (str "[\"rs1\",\"rs2\"]")) =
      [Json.str (str "rs1"), Json.str (str "rs2")] ∧
    normalizeRsids (.str (str "rs1")) = [Json.str (str "rs1")] ∧
    normalizeRsids (.str (str "[rs1]")) = [Json.str (str "[rs1]")] := by
  refine ⟨fun l => rfl, ?_, ?_, ?_, by rfl, by rfl, by rfl⟩
  · intro s parsed hb hp
    simp only [normalizeRsids, hb, if_true, hp]
  · intro s hb
    simp only [normalizeRsids, hb, Bool.false_eq_true, if_false]
  · intro s hb hnp
    simp only [normalizeRsids, hb, if_true]

theorem claim_C4_witness :
    normalizeRsids (.str (str "rs9")) = [Json.str (str "rs9")] :=
  claim_C4.2.2.1 (str "rs9") (by decide)

/-- Claim C5: the validator accepts exactly the strings whose trimmed form is
`rs` followed by one or more decimal digits; whitespace padding never changes
the verdict; the empty string, a mixed-case prefix, internal whitespace and a
non-digit suffix are all rejected. -/
theorem claim_C5 :
    (∀ s : Str, validateRsid s = true ↔
      ∃ ds, jsTrim s = 'r' :: 's' :: ds ∧ ds ≠ [] ∧
        ∀ c ∈ ds, c.isDigit = true) ∧
    (∀ w1 w2 s : Str, (∀ c ∈ w1, isJsWs c = true) →
      (∀ c ∈ w2, isJsWs c = true) →
      validateRsid (w1 ++ s ++ w2) = validateRsid s) ∧
    validateRsid (str "") = false ∧
    validateRsid (str "RS123") = false ∧
    validateRsid (str "rs 12") = false ∧
    validateRsid (str "rs12x") = false ∧
    (∀ (s : Str) (c : Char), c ∈ jsTrim s → isJsWs c = true →
      validateRsid s = false) := by
  have hchar : ∀ s : Str, validateRsid s = true ↔
      ∃ ds, jsTrim s = 'r' :: 's' :: ds ∧ ds ≠ [] ∧
        ∀ c ∈ ds, c.isDigit = true := by
    intro s
    unfold validateRsid
    generalize jsTrim s = t
    split
    next d ds =>
      constructor
      · intro h
        exact ⟨d :: ds, rfl, by simp, List.all_eq_true.mp h⟩
      · rintro ⟨ds2, heq2, hne, hd⟩
        injection heq2 with h1 h2
        injection h2 with h3 h4
        subst h4
        exact List.all_eq_true.mpr hd
    next h =>
      constructor
      · intro hfalse
        exact absurd hfalse (by decide)
      · rintro ⟨ds, rfl, hne, hd⟩
        cases ds with
        | nil => exact absurd rfl hne
        | cons a as => exact absurd rfl (h a as)
  refine ⟨hchar, ?_, by decide, by decide, by decide, by decide, ?_⟩
  · intro w1 w2 s h1 h2
    unfold validateRsid
    rw [jsTrim_pad w1 w2 s h1 h2]
  · intro s c hc hw
    cases hv : validateRsid s with
    | false => rfl
    | true =>
      exfalso
      obtain ⟨ds, hds, hne, hd⟩ := (hchar s).mp hv
      rw [hds] at hc
      simp only [List.mem_cons] at hc
      rcases hc with rfl | rfl | hc
      · exact absurd hw (by decide)
      · exact absurd hw (by decide)
      · have h5 := hd c hc
        rw [ws_not_digit c hw] at h5
        cases h5

theorem claim_C5_witness :
    validateRsid (str " " ++ str "rs1" ++ str " ") = validateRsid (str "rs1") :=
  claim_C5.2.1 (str " ") (str " ") (str "rs1") (by decide) (by decide)

/-- Claim C6: in every successful query result, the not-found list is the
original queried list filtered to the elements outside the found set —
preserving order and per-occurrence duplicates: an identifier in the found
set contributes zero occurrences to not-found, and an identifier outside it
contributes exactly its occurrences in the queried list. -/
theorem claim_C6 (fs : FS) (samplesDir subjectName : Str) (rsids : List Str)
    (r : QueryResult) (calls : List FsCall)
    (H : querySnpHandler fs samplesDir subjectName rsids = (.ok r, calls)) :
    r.not_found_rsids =
      r.queried_rsids.filter (fun x => !r.found_rsids.contains x) ∧
    (∀ x ∈ r.found_rsids, r.not_found_rsids.count x = 0) ∧
    (∀ x, x ∉ r.found_rsids →
      r.not_found_rsids.count x = r.queried_rsids.count x) := by
  obtain ⟨content, hread, hr⟩ := querySnpHandler_ok _ _ _ _ _ _ H
  obtain ⟨hq, hf, hnf, -, -, -⟩ := assembleResult_fields subjectName rsids content
  subst hr
  refine ⟨by rw [hnf, hq, hf], ?_, ?_⟩
  · intro x hx
    rw [hnf]
    apply count_filter_zero
    rw [hf] at hx
    rw [(contains_iff _ _).mpr hx]
    rfl
  · intro x hx
    rw [hnf, hq]
    apply List.count_filter
    rw [hf] at hx
    rw [contains_eq_false _ _ hx]
    rfl

theorem claim_C6_witness :
    fixtureResult.not_found_rsids =
      fixtureResult.queried_rsids.filter
        (fun x => !fixtureResult.found_rsids.contains x) :=
  (claim_C6 fixtureFS (str "profiles") (str "alice") [str "rs1", str "rs3"]
    fixtureResult fixtureCalls (by rfl)).1

/-- Claim C7: lines that are blank after trimming are skipped wherever they
occur — the scan of a line list equals the scan of its non-blank sublist, the
header is always the first line that is non-blank after trimming (converted
tab-to-comma), and an all-blank file yields an absent header, no rows and an
empty found set. -/
theorem claim_C7 (rsids lines : List Str) (content : Str) :
    scanLines rsids lines =
      scanLines rsids (lines.filter (fun l => !(jsTrim l).isEmpty)) ∧
    (scanFile rsids content).header =
      ((jsSplit '\n' content).find? (fun l => !(jsTrim l).isEmpty)).map
        (fun l => (jsTrim l).map tabToComma) ∧
    ((∀ l ∈ lines, jsTrim l = []) →
      scanLines rsids lines = { header := none, matchingRows := [], foundRsids := [] }) := by
  refine ⟨?_, ?_, ?_⟩
  · show lines.foldl (scanStep rsids) ⟨none, [], []⟩ =
      (lines.filter (fun l => !(jsTrim l).isEmpty)).foldl (scanStep rsids)
        ⟨none, [], []⟩
    exact scanFold_blank_filter rsids lines _
  · show ((jsSplit '\n' content).foldl (scanStep rsids) ⟨none, [], []⟩).header = _
    exact scanFold_header_none rsids (jsSplit '\n' content) _ rfl
  · intro hall
    have h2 : lines.filter (fun l => !(jsTrim l).isEmpty) = [] := by
      cases hfe : lines.filter (fun l => !(jsTrim l).isEmpty) with
      | nil => rfl
      | cons a as =>
        have ha : a ∈ lines.filter (fun l => !(jsTrim l).isEmpty) := by
          rw [hfe]; exact List.mem_cons_self a as
        have h3 := List.mem_filter.mp ha
        have h4 := h3.2
        rw [hall a h3.1] at h4
        exact absurd h4 (by decide)
    show lines.foldl (scanStep rsids) ⟨none, [], []⟩ = ⟨none, [], []⟩
    rw [scanFold_blank_filter rsids lines, h2]
    rfl

theorem claim_C7_witness :
    scanLines [str "rs1"] [str "", str "  "] =
      { header := none, matchingRows := [], foundRsids := [] } :=
  (claim_C7 [str "rs1"] [str "", str "  "] []).2.2 (by decide)

/-- Claim C9: a queried identifier with a leading whitespace character whose
trimmed form matches the grammar passes format validation, but can never be
in the found set of a successful result — every data line is trimmed before
splitting so its first column starts with a non-whitespace character while
matching compares the raw queried string — hence it is always in the
not-found list. -/
theorem claim_C9 (c : Char) (cs : Str) (hws : isJsWs c = true)
    (_hval : validateRsid (c :: cs) = true)
    (fs : FS) (samplesDir subjectName : Str) (rsids : List Str)
    (r : QueryResult) (calls : List FsCall) (hmem : (c :: cs) ∈ rsids)
    (H : querySnpHandler fs samplesDir subjectName rsids = (.ok r, calls)) :
    (c :: cs) ∉ r.found_rsids ∧ (c :: cs) ∈ r.not_found_rsids := by
  obtain ⟨content, hread, hr⟩ := querySnpHandler_ok _ _ _ _ _ _ H
  obtain ⟨hq, hf, hnf, -, -, -⟩ := assembleResult_fields subjectName rsids content
  subst hr
  have hscan : scanFile rsids content =
      (jsSplit '\n' content).foldl (scanStep rsids) ⟨none, [], []⟩ := rfl
  have hnotfound : (c :: cs) ∉ (scanFile rsids content).foundRsids := by
    intro hin
    rw [hscan] at hin
    rcases scanFold_found_sub rsids (jsSplit '\n' content) ⟨none, [], []⟩
        (c :: cs) hin with h0 | ⟨-, c2, cs2, heq, hw2⟩
    · cases h0
    · injection heq with h1 h2
      subst h1
      rw [hws] at hw2
      cases hw2
  constructor
  · rw [hf]; exact hnotfound
  · rw [hnf]
    apply List.mem_filter.mpr
    refine ⟨hmem, ?_⟩
    rw [contains_eq_false _ _ hnotfound]
    rfl

theorem claim_C9_witness :
    (' ' :: str "rs1") ∉ (QueryResult.mk (str "alice")
        (some (str "rsid,chromosome,position,allele1,allele2")) []
        [' ' :: str "rs1"] 0 [] [' ' :: str "rs1"]).found_rsids ∧
    (' ' :: str "rs1") ∈ (QueryResult.mk (str "alice")
        (some (str "rsid,chromosome,position,allele1,allele2")) []
        [' ' :: str "rs1"] 0 [] [' ' :: str "rs1"]).not_found_rsids :=
  claim_C9 ' ' (str "rs1") (by decide) (by decide) fixtureFS (str "profiles")
    (str "alice") [' ' :: str "rs1"]
    (QueryResult.mk (str "alice")
      (some (str "rsid,chromosome,position,allele1,allele2")) []
      [' ' :: str "rs1"] 0 [] [' ' :: str "rs1"])
    fixtureCalls (List.mem_singleton.mpr rfl) (by rfl)

/-- Claim C10: in every successful query result, the found count equals the
number of matched rows (and bounds the number of distinct found identifiers
from above), found and not-found identifiers all come from the queried list,
and the found and not-found lists are disjoint. -/
theorem claim_C10 (fs : FS) (samplesDir subjectName : Str) (rsids : List Str)
    (r : QueryResult) (calls : List FsCall)
    (H : querySnpHandler fs samplesDir subjectName rsids = (.ok r, calls)) :
    r.found_count = r.matching_rows.length ∧
    r.found_rsids.Nodup ∧
    r.found_rsids.length ≤ r.matching_rows.length ∧
    (∀ x ∈ r.found_rsids, x ∈ r.queried_rsids) ∧
    (∀ x ∈ r.not_found_rsids, x ∈ r.queried_rsids) ∧
    (∀ x, x ∈ r.found_rsids → x ∉ r.not_found_rsids) := by
  obtain ⟨content, hread, hr⟩ := querySnpHandler_ok _ _ _ _ _ _ H
  obtain ⟨hq, hf, hnf, hfc, hmr, -⟩ := assembleResult_fields subjectName rsids content
  subst hr
  have hscan : scanFile rsids content =
      (jsSplit '\n' content).foldl (scanStep rsids) ⟨none, [], []⟩ := rfl
  refine ⟨hfc, ?_, ?_, ?_, ?_, ?_⟩
  · rw [hf, hscan]
    exact scanFold_nodup rsids (jsSplit '\n' content) ⟨none, [], []⟩ List.nodup_nil
  · rw [hf, hmr, hscan]
    have h1 := scanFold_delta rsids (jsSplit '\n' content) ⟨none, [], []⟩
    simpa using h1
  · intro x hx
    rw [hf, hscan] at hx
    rw [hq]
    rcases scanFold_found_sub rsids (jsSplit '\n' content) ⟨none, [], []⟩
        x hx with h0 | ⟨hmem, -⟩
    · cases h0
    · exact hmem
  · intro x hx
    rw [hnf] at hx
    rw [hq]
    exact (List.mem_filter.mp hx).1
  · intro x hxf
    rw [hf] at hxf
    rw [hnf]
    intro hxn
    have h2 := (List.mem_filter.mp hxn).2
    rw [(contains_iff _ _).mpr hxf] at h2
    cases h2

theorem claim_C10_witness :
    fixtureResult.found_count = fixtureResult.matching_rows.length :=
  (claim_C10 fixtureFS (str "profiles") (str "alice") [str "rs1", str "rs3"]
    fixtureResult fixtureCalls (by rfl)).1

/-- Claim C8: for `list_subjects`, a malformed pattern yields a structured
error distinct from an empty match list; with no pattern every immediate
directory entry (non-directories excluded) is returned, and with a valid
pattern the matching entries are returned; in both the filtered and
unfiltered cases the returned list is sorted lexicographically, regardless of
the enumeration order of the filesystem; a missing root directory yields an
empty list, not an error. -/
theorem claim_C8 (compileRegex : Str → Option (Str → Bool)) (fs : FS)
    (samplesDir : Str) :
    (∀ p, fs.dirExists samplesDir = true → compileRegex p = none →
      listSubjectsHandler compileRegex fs samplesDir (some p) =
          .errBadPattern p ∧
        ∀ l, listSubjectsHandler compileRegex fs samplesDir (some p) ≠ .ok l) ∧
    (fs.dirExists samplesDir = true →
      listSubjectsHandler compileRegex fs samplesDir none =
        .ok (sortStrs ((fs.readdir samplesDir).filter
          (fun item => fs.dirExists (pathJoin samplesDir item)))) ∧
      ∀ l, listSubjectsHandler compileRegex fs samplesDir none = .ok l →
        l.Sorted (· ≤ ·)) ∧
    (∀ p test, fs.dirExists samplesDir = true → compileRegex p = some test →
      listSubjectsHandler compileRegex fs samplesDir (some p) =
        .ok (sortStrs (((fs.readdir samplesDir).filter
          (fun item => fs.dirExists (pathJoin samplesDir item))).filter
          test))) ∧
    (fs.dirExists samplesDir = false →
      ∀ pat, listSubjectsHandler compileRegex fs samplesDir pat = .ok []) ∧
    (∀ pat l, listSubjectsHandler compileRegex fs samplesDir pat = .ok l →
      l.Sorted (· ≤ ·)) ∧
    (∀ entries1 entries2 : List Str, entries1.Perm entries2 → ∀ pat,
      listSubjectsHandler compileRegex
          { fs with readdir := fun _ => entries1 } samplesDir pat =
        listSubjectsHandler compileRegex
          { fs with readdir := fun _ => entries2 } samplesDir pat) := by
  have hmissing : fs.dirExists samplesDir = false →
      ∀ pat, listSubjectsHandler compileRegex fs samplesDir pat = .ok [] := by
    intro hfalse pat
    simp only [listSubjectsHandler, hfalse, Bool.not_false, if_true]
  have hbadpat : ∀ p, fs.dirExists samplesDir = true → compileRegex p = none →
      listSubjectsHandler compileRegex fs samplesDir (some p) =
        .errBadPattern p := by
    intro p hd hc
    simp only [listSubjectsHandler, hd, hc, Bool.not_true,
      Bool.false_eq_true, if_false]
  have hnopat : fs.dirExists samplesDir = true →
      listSubjectsHandler compileRegex fs samplesDir none =
        .ok (sortStrs ((fs.readdir samplesDir).filter
          (fun item => fs.dirExists (pathJoin samplesDir item)))) := by
    intro hd
    simp only [listSubjectsHandler, hd, Bool.not_true,
      Bool.false_eq_true, if_false]
  have hgoodpat : ∀ p test, fs.dirExists samplesDir = true →
      compileRegex p = some test →
      listSubjectsHandler compileRegex fs samplesDir (some p) =
        .ok (sortStrs (((fs.readdir samplesDir).filter
          (fun item => fs.dirExists (pathJoin samplesDir item))).filter
          test)) := by
    intro p test hd hc
    simp only [listSubjectsHandler, hd, hc, Bool.not_true,
      Bool.false_eq_true, if_false]
  refine ⟨?_, ?_, hgoodpat, hmissing, ?_, ?_⟩
  · intro p hd hc
    refine ⟨hbadpat p hd hc, ?_⟩
    intro l heq
    rw [hbadpat p hd hc] at heq
    cases heq
  · intro hd
    refine ⟨hnopat hd, ?_⟩
    intro l heq
    rw [hnopat hd] at heq
    injection heq with h2
    rw [← h2]
    exact List.sorted_insertionSort _ _
  · intro pat l heq
    by_cases hd : fs.dirExists samplesDir = true
    · cases pat with
      | none =>
        rw [hnopat hd] at heq
        injection heq with h2
        rw [← h2]
        exact List.sorted_insertionSort _ _
      | some p =>
        cases hc : compileRegex p with
        | none =>
          rw [hbadpat p hd hc] at heq
          cases heq
        | some test =>
          rw [hgoodpat p test hd hc] at heq
          injection heq with h2
          rw [← h2]
          exact List.sorted_insertionSort _ _
    · have hfalse : fs.dirExists samplesDir = false := by
        cases hv : fs.dirExists samplesDir with
        | false => rfl
        | true => exact absurd hv hd
      rw [hmissing hfalse pat] at heq
      injection heq with h2
      rw [← h2]
      exact List.sorted_nil
  · intro e1 e2 hperm pat
    by_cases hd : fs.dirExists samplesDir = true
    · simp only [listSubjectsHandler, hd, Bool.not_true,
        Bool.false_eq_true, if_false]
      cases pat with
      | none =>
        exact congrArg ListSubjectsResponse.ok
          (sortStrs_perm_eq _ _
            (hperm.filter (fun item => fs.dirExists (pathJoin samplesDir item))))
      | some p =>
        dsimp only
        cases hcp : compileRegex p with
        | none => rfl
        | some test =>
          exact congrArg ListSubjectsResponse.ok
            (sortStrs_perm_eq _ _
              ((hperm.filter
                (fun item => fs.dirExists (pathJoin samplesDir item))).filter
                test))
    · have hfalse : fs.dirExists samplesDir = false := by
        cases hv : fs.dirExists samplesDir with
        | false => rfl
        | true => exact absurd hv hd
      simp only [listSubjectsHandler, hfalse, Bool.not_false, if_true]

theorem claim_C8_witness :
    listSubjectsHandler (fun _ => some (fun _ => true)) listFS (str "root")
        (some (str "a")) =
      .ok (sortStrs (((listFS.readdir (str "root")).filter
        (fun item => listFS.dirExists (pathJoin (str "root") item))).filter
        (fun _ => true))) ∧
    (sortStrs (((listFS.readdir (str "root")).filter
        (fun item => listFS.dirExists (pathJoin (str "root") item))).filter
        (fun _ => true))).Sorted (· ≤ ·) ∧
    listSubjectsHandler (fun _ => none) emptyRootFS (str "root") none =
      .ok [] :=
  ⟨(claim_C8 (fun _ => some (fun _ => true)) listFS (str "root")).2.2.1
      (str "a") (fun _ => true) rfl rfl,
   (claim_C8 (fun _ => some (fun _ => true)) listFS (str "root")).2.2.2.2.1
      (some (str "a")) _
      ((claim_C8 (fun _ => some (fun _ => true)) listFS (str "root")).2.2.1
        (str "a") (fun _ => true) rfl rfl),
   (claim_C8 (fun _ => none) emptyRootFS (str "root")).2.2.2.1 rfl none⟩
